import Mathlib

/-!
Verification development for the tendril layered configuration-resolution
engine (`tendril/utils/config.py`).

The Python source is shallowly embedded: Python values appearing in
configuration documents are modelled by `PyVal`, Python exceptions relevant
to the module by `PyExc`, Python dicts by association lists with
Python's insert-or-replace assignment (`dinsert`) and the `d[k]` /
`d.get(k)` access semantics, and every fallible operation by
`Except PyExc`.  Each definition mirrors one function or method of the
source module; the correspondence is noted in doc comments.
-/

namespace TendrilConfig

/-- Python values occurring in configuration documents: `None`, booleans,
integers, strings and (ordered) dicts.  This covers the JSON documents
backing external sources and the key/value override documents. -/
inductive PyVal where
  | none
  | bool (b : Bool)
  | int (n : Int)
  | str (s : String)
  | dict (entries : List (String × PyVal))

/-- Lookup in an ordered association list, mirroring Python dict key lookup
(first — and by construction only — binding of the key). -/
def dictLookup {α : Type} (d : List (String × α)) (k : String) : Option α :=
  match d with
  | [] => Option.none
  | (k', v) :: rest => if k' = k then some v else dictLookup rest k

/-- Python dict assignment `d[k] = v`: replaces the value of an existing key
in place, otherwise appends the new binding (insertion order preserved). -/
def dinsert {α : Type} (d : List (String × α)) (k : String) (v : α) : List (String × α) :=
  match d with
  | [] => [(k, v)]
  | (k', v') :: rest => if k' = k then (k, v) :: rest else (k', v') :: dinsert rest k v

/-- The Python exceptions the config module can raise or observe.
`keyError`, `typeError`, `nameError`, `syntaxError`, `attributeError` and
`valueError` are the builtin exceptions; the remaining constructors are the
exception classes defined in `tendril/utils/config.py`, carrying the
constructor arguments the source passes. -/
inductive PyExc where
  | keyError (key : String)
  | typeError
  | nameError (name : String)
  | syntaxError
  | attributeError
  | valueError
  | externalConfigMissing (source : String) (filetype : String)
  | externalConfigFormat (source : PyVal) (filetype : PyVal)
  | extKeyError (source : String) (key : String)
  | doesNotProvideKey (source : String) (key : String)
  | doesNotContainKey (source : PyVal) (keyPath : PyVal)

/-- Python `isinstance(e, KeyError)` for the builtin KeyError. -/
def isKeyError : PyExc → Bool
  | .keyError _ => true
  | _ => false

/-- Python `isinstance(e, ExternalConfigKeyError)`: the class itself and its
two subclasses `ConfigSourceDoesNotProvideKey` and
`ConfigSourceDoesNotContainKey`. -/
def isExtKeyError : PyExc → Bool
  | .extKeyError _ _ => true
  | .doesNotProvideKey _ _ => true
  | .doesNotContainKey _ _ => true
  | _ => false

/-- Python `str.split(sep)` for a single-character separator: `""` splits to
`[""]`, and consecutive separators produce empty fields. -/
def pySplit (sep : Char) (s : String) : List String :=
  go s.data [] where
  go : List Char → List Char → List String
  | [], acc => [String.mk acc.reverse]
  | c :: cs, acc => if c = sep then String.mk acc.reverse :: go cs [] else go cs (c :: acc)

/-- Python `rval.get(crumb)` inside `ConfigExternalJSONSource._get`:
`dict.get` returns the value or `None` when the key is absent (it never
raises `KeyError`); every non-dict value in a JSON document (including
`None`) has no `get` attribute, so the call raises `AttributeError`. -/
def py_get_method (v : PyVal) (k : String) : Except PyExc PyVal :=
  match v with
  | .dict d => .ok ((dictLookup d k).getD PyVal.none)
  | _ => .error .attributeError

/-- The `for crumb in key_path.split(':')` walk of
`ConfigExternalJSONSource._get`. -/
def walk_path (v : PyVal) (crumbs : List String) : Except PyExc PyVal :=
  match crumbs with
  | [] => .ok v
  | c :: cs =>
    match py_get_method v c with
    | .ok v' => walk_path v' cs
    | .error e => .error e

/-- One external source: `ConfigExternalJSONSource` with its locator
(`_path`), the keymap entry taken from the descriptor (`_keymap`) and the
already-parsed backing JSON document (`_source`). -/
structure ExtSource where
  path : String
  keymap : PyVal
  source : PyVal

/-- `ConfigExternalJSONSource._get(key_path)`: split the internal path on
`':'`, walk the document with `.get`, and translate a `KeyError` (and only a
`KeyError`) into `ConfigSourceDoesNotContainKey`.  A non-string `key_path`
has no `.split`, raising `AttributeError`. -/
def json_source_get (doc : PyVal) (keyPath : PyVal) : Except PyExc PyVal :=
  match keyPath with
  | .str kp =>
    match walk_path doc (pySplit ':' kp) with
    | .ok v => .ok v
    | .error e =>
      if isKeyError e then .error (.doesNotContainKey doc keyPath) else .error e
  | _ => .error .attributeError

/-- `ConfigExternalSource.get(key)`: raise `ConfigSourceDoesNotProvideKey`
when the key is not in the keymap, otherwise resolve the mapped internal
path.  `self._keymap.keys()` on a non-dict keymap raises `AttributeError`. -/
def source_get (src : ExtSource) (key : String) : Except PyExc PyVal :=
  match src.keymap with
  | .dict km =>
    match dictLookup km key with
    | Option.none => .error (.doesNotProvideKey src.path key)
    | some kp => json_source_get src.source kp
  | _ => .error .attributeError

/-- The chain object `ConfigExternalSources`: descriptor path plus the list
of constructed sources, in construction order. -/
structure ExtSources where
  path : String
  sources : List ExtSource

/-- The loop of `ConfigExternalSources.get(key)`: try each source in order,
catching exactly `ExternalConfigKeyError`; when all sources are exhausted
raise `ExternalConfigKeyError(self._path, key)`. -/
def sources_get_loop (chainPath : String) (srcs : List ExtSource) (key : String) :
    Except PyExc PyVal :=
  match srcs with
  | [] => .error (.extKeyError chainPath key)
  | s :: rest =>
    match source_get s key with
    | .ok v => .ok v
    | .error e =>
      if isExtKeyError e then sources_get_loop chainPath rest key else .error e

/-- `ConfigExternalSources.get(key)`. -/
def sources_get (c : ExtSources) (key : String) : Except PyExc PyVal :=
  sources_get_loop c.path c.sources key

/-- A parsed entry of the `external_configs.yaml` descriptor document: a
Python dict, accessed with `config['format']` etc. -/
abbrev Entry : Type := List (String × PyVal)

/-- Python subscript `config[k]` on a descriptor entry, raising `KeyError`
when the key is absent. -/
def entry_item (e : Entry) (k : String) : Except PyExc PyVal :=
  match dictLookup e k with
  | some v => .ok v
  | Option.none => .error (.keyError k)

/-- Python `config['format'] == 'json'`: equal only when the value is the
string itself (a non-string value compares unequal to a string, without
raising). -/
def pyEqStr (v : PyVal) (s : String) : Bool :=
  match v with
  | .str t => t = s
  | _ => false

/-- `ConfigExternalJSONSource.__init__` / `_load_external_config`: look up
the backing document at the entry's path in the filesystem snapshot `fs`
(path → parsed JSON document); a missing file raises
`ExternalConfigMissingError(path, 'json')`.  A non-string path cannot be
expanded by `os.path.expandvars`, raising `TypeError`. -/
def mk_json_source (fs : List (String × PyVal)) (path : PyVal) (keymap : PyVal) :
    Except PyExc ExtSource :=
  match path with
  | .str p =>
    match dictLookup fs p with
    | Option.none => .error (.externalConfigMissing p "json")
    | some doc => .ok ⟨p, keymap, doc⟩
  | _ => .error .typeError

/-- The body of one iteration of `ConfigExternalSources._load_external_sources`:
on format `'json'` construct the source; on any other format evaluate
`ExternalConfigFormatError(config['path'], config['filetype'])` — note the
source reads the key `'filetype'`, not `'format'`, so the lookup itself can
raise `KeyError('filetype')`. -/
def load_one_source (fs : List (String × PyVal)) (cfg : Entry) : Except PyExc ExtSource :=
  match entry_item cfg "format" with
  | .error e => .error e
  | .ok fv =>
    if pyEqStr fv "json" then
      match entry_item cfg "path" with
      | .error e => .error e
      | .ok pv =>
        match entry_item cfg "keymap" with
        | .error e => .error e
        | .ok km => mk_json_source fs pv km
    else
      match entry_item cfg "path" with
      | .error e => .error e
      | .ok pv =>
        match entry_item cfg "filetype" with
        | .error e => .error e
        | .ok ft => .error (.externalConfigFormat pv ft)

/-- `ConfigExternalSources._load_external_sources`: iterate the descriptor
entries, appending each constructed source; `ExternalConfigMissingError`
(and only it) is caught and the entry silently dropped; every other
exception propagates and aborts construction. -/
def load_external_sources (fs : List (String × PyVal)) (entries : List Entry) :
    Except PyExc (List ExtSource) :=
  match entries with
  | [] => .ok []
  | cfg :: rest =>
    match load_one_source fs cfg with
    | .ok s =>
      match load_external_sources fs rest with
      | .ok l => .ok (s :: l)
      | .error e => .error e
    | .error (.externalConfigMissing _ _) => load_external_sources fs rest
    | .error e => .error e

/-- A value stored in the `ConfigManager`'s `__dict__` (which doubles as the
shared `ResolutionContext`): a plain Python value, the
`ConfigExternalSources` chain object, or the `os` module inserted by
`load_elements`. -/
inductive MVal where
  | py (v : PyVal)
  | ext (chain : ExtSources)
  | osMod

/-- The manager's attribute dictionary `self.__dict__`, which
`ConfigOption.raw_value` receives as `self.ctx`. -/
abbrev Ctx : Type := List (String × MVal)

/-- Python truthiness of a context value: `None`, `False`, `0`, `""` and
`{}` are falsy; a `ConfigExternalSources` object or module is truthy. -/
def mvalTruthy (v : MVal) : Bool :=
  match v with
  | .py .none => false
  | .py (.bool b) => b
  | .py (.int n) => n != 0
  | .py (.str s) => s != ""
  | .py (.dict d) => !d.isEmpty
  | .ext _ => true
  | .osMod => true

/-- Python subscript `ctx[k]` on the context dict: `KeyError` when absent. -/
def ctx_item (ctx : Ctx) (k : String) : Except PyExc MVal :=
  match dictLookup ctx k with
  | some v => .ok v
  | Option.none => .error (.keyError k)

/-- Python subscript `m[key]` on a context value: dict lookup raising
`KeyError`, while subscripting `None`, a number, a string (with a string
key), a chain object or a module raises `TypeError`. -/
def mval_item (v : MVal) (key : String) : Except PyExc PyVal :=
  match v with
  | .py (.dict d) =>
    match dictLookup d key with
    | some r => .ok r
    | Option.none => .error (.keyError key)
  | _ => .error .typeError

/-- `self.ctx[srcKey][name]`, the compound access used by steps 1–3 of
`ConfigOption.raw_value`. -/
def try_dict_source (ctx : Ctx) (srcKey : String) (name : String) : Except PyExc PyVal :=
  match ctx_item ctx srcKey with
  | .ok m => mval_item m name
  | .error e => .error e

/-- `self.ctx['_external_configs'].get(self.name)`: `.get` dispatches to
`ConfigExternalSources.get` on the chain object; a Python dict also has a
`.get` method (returning `None` for a missing key); other values raise
`AttributeError`. -/
def mval_get_method (v : MVal) (key : String) : Except PyExc PyVal :=
  match v with
  | .ext c => sources_get c key
  | .py (.dict d) => .ok ((dictLookup d key).getD PyVal.none)
  | _ => .error .attributeError

/-- The fragment of Python expressions used as compiled-in defaults that the
claims exercise: a literal, a reference to a name of the shared context, or
the empty expression (an unset mandatory option).  Identifiers resolving to
builtins and composite expressions are outside this fragment; a composite
expression whose value is determined is modelled by `lit`. -/
inductive Expr where
  | lit (v : PyVal)
  | name (n : String)
  | empty

/-- `eval(self.default, self.ctx)`.  `eval(None, ...)` raises `TypeError`
(the first argument must be a string); the empty expression raises
`SyntaxError`; an unresolvable name raises `NameError`. -/
def eval_default (default : Option Expr) (ctx : Ctx) : Except PyExc MVal :=
  match default with
  | Option.none => .error .typeError
  | some .empty => .error .syntaxError
  | some (.lit v) => .ok (.py v)
  | some (.name n) =>
    match dictLookup ctx n with
    | some v => .ok v
    | Option.none => .error (.nameError n)

/-- The message printed by `ConfigOption.raw_value` when the default
expression of a required option fails with `SyntaxError`. -/
def reqMsg (name : String) : String :=
  "Required config option not set in instance config : " ++ name

/-- Outcome of `ConfigOption.raw_value`: the lines printed to stdout and
either the resolved value paired with the provenance tag assigned to
`self.source`, or the propagated exception. -/
structure RVResult where
  printed : List String
  result : Except PyExc (MVal × String)

/-- Step 5 of `ConfigOption.raw_value`: evaluate the default expression;
`except SyntaxError` prints a message naming the option and re-raises;
every other failure propagates silently. -/
def raw_value_default (name : String) (default : Option Expr) (ctx : Ctx) : RVResult :=
  match eval_default default ctx with
  | .ok v => ⟨[], .ok (v, "default")⟩
  | .error .syntaxError => ⟨[reqMsg name], .error .syntaxError⟩
  | .error e => ⟨[], .error e⟩

/-- Step 4 of `ConfigOption.raw_value`: the external chain is consulted only
when `self.ctx['_external_configs']` is truthy; the `try` around the step
catches exactly `ExternalConfigKeyError` (so a `KeyError` from the context
lookup itself, or an `AttributeError` from path traversal, propagates). -/
def raw_value_external (name : String) (default : Option Expr) (ctx : Ctx) : RVResult :=
  match ctx_item ctx "_external_configs" with
  | .error e => ⟨[], .error e⟩
  | .ok extv =>
    if mvalTruthy extv then
      match mval_get_method extv name with
      | .ok rv => ⟨[], .ok (.py rv, "external_config")⟩
      | .error e =>
        if isExtKeyError e then raw_value_default name default ctx else ⟨[], .error e⟩
    else raw_value_default name default ctx

/-- `ConfigOption.raw_value`: consult `_environment_overrides`,
`_local_config` and `_instance_config` by exact key, each step catching
exactly `KeyError`, then the external chain, then the default expression. -/
def raw_value (name : String) (default : Option Expr) (ctx : Ctx) : RVResult :=
  match try_dict_source ctx "_environment_overrides" name with
  | .ok rv => ⟨[], .ok (.py rv, "environment_override")⟩
  | .error e1 =>
    if isKeyError e1 then
      match try_dict_source ctx "_local_config" name with
      | .ok rv => ⟨[], .ok (.py rv, "local_override")⟩
      | .error e2 =>
        if isKeyError e2 then
          match try_dict_source ctx "_instance_config" name with
          | .ok rv => ⟨[], .ok (.py rv, "instance_config")⟩
          | .error e3 =>
            if isKeyError e3 then raw_value_external name default ctx
            else ⟨[], .error e3⟩
        else ⟨[], .error e2⟩
    else ⟨[], .error e1⟩

/-- Python `value[:m]` for a nonnegative `m`. -/
def py_prefix_slice (s : String) (m : Nat) : String := s.take m

/-- Python `value[-m:]`: for `m = 0` this is `value[0:]`, the WHOLE string;
for `m > 0` it is the last `m` characters (the whole string when `m` exceeds
the length). -/
def py_neg_slice (s : String) (m : Nat) : String :=
  if m = 0 then s else s.drop (s.length - m)

/-- `ConfigElement.masked_value` as a function of the already-computed
`self.value`: non-masked elements and non-string values are returned
unchanged; a masked string of length `L` is rendered with
`m = int(min(L/8, 8))` (equal to `min(L/8 rounded down, 8)`) as
`value[:m] + "..." + value[-m:]`. -/
def masked_value (masked : Bool) (value : MVal) : MVal :=
  if !masked then value
  else
    match value with
    | .py (.str s) =>
      let mLen := min (s.length / 8) 8
      .py (.str (py_prefix_slice s mLen ++ "..." ++ py_neg_slice s mLen))
    | v => v

/-- `ConfigElement.jsonable_value` as a function of the masked value: a
plain Python value serialises to JSON unchanged; a chain object or module is
not JSON-serialisable and is replaced by its `str(...)` text (whose precise
interpreter-dependent form is abstracted to a fixed placeholder). -/
def jsonable_value (mv : MVal) : PyVal :=
  match mv with
  | .py v => v
  | .ext _ => .str "<ConfigExternalSources object>"
  | .osMod => .str "<module os>"

/-- `distutils.util.strtobool`: `1` for a recognised true form and `0` for a
recognised false form (note the int return type), `ValueError` otherwise. -/
def strtobool (s : String) : Except PyExc MVal :=
  let l := s.toLower
  if l = "y" ∨ l = "yes" ∨ l = "t" ∨ l = "true" ∨ l = "on" ∨ l = "1" then
    .ok (.py (.int 1))
  else if l = "n" ∨ l = "no" ∨ l = "f" ∨ l = "false" ∨ l = "off" ∨ l = "0" then
    .ok (.py (.int 0))
  else .error .valueError

/-- `bool_parse`: falsy values map to `False`; strings go through
`strtobool`; anything else through `bool(...)`. -/
def bool_parse (v : MVal) : Except PyExc MVal :=
  if !mvalTruthy v then .ok (.py (.bool false))
  else
    match v with
    | .py (.str s) => strtobool s
    | w => .ok (.py (.bool (mvalTruthy w)))

/-- The parser functions attached to options that the claims exercise.
`pybool` is the builtin `bool`, which `ConfigOption.value` special-cases to
`bool_parse`. -/
inductive Parser where
  | pybool

/-- A `ConfigElement`: either a `ConfigConstant` (value always re-evaluates
the default expression, provenance `hardcoded`) or a `ConfigOption` (value
resolves through the precedence chain, optionally post-processed by a
parser). -/
inductive CElem where
  | const (name : String) (default : Option Expr) (doc : String) (masked : Bool)
  | opt (name : String) (default : Option Expr) (doc : String)
      (parser : Option Parser) (masked : Bool)

/-- The `name` attribute of a `ConfigElement`. -/
def CElem.name : CElem → String
  | .const n _ _ _ => n
  | .opt n _ _ _ _ => n

/-- The `doc` attribute of a `ConfigElement`. -/
def CElem.doc : CElem → String
  | .const _ _ d _ => d
  | .opt _ _ d _ _ => d

/-- The `default` attribute of a `ConfigElement`. -/
def CElem.default : CElem → Option Expr
  | .const _ e _ _ => e
  | .opt _ e _ _ _ => e

/-- The `masked` attribute of a `ConfigElement`. -/
def CElem.masked : CElem → Bool
  | .const _ _ _ m => m
  | .opt _ _ _ _ m => m

/-- `ConfigConstant.value` / `ConfigOption.value` as a function of the
context: constants evaluate the default with provenance `hardcoded`;
options resolve `raw_value` and apply the parser (the builtin `bool` is
replaced by `bool_parse`).  Returns the value together with the provenance
tag left in `self.source`. -/
def element_value (e : CElem) (ctx : Ctx) : Except PyExc (MVal × String) :=
  match e with
  | .const _ default _ _ =>
    match eval_default default ctx with
    | .ok v => .ok (v, "hardcoded")
    | .error exc => .error exc
  | .opt name default _ parser _ =>
    match (raw_value name default ctx).result with
    | .error exc => .error exc
    | .ok (v, src) =>
      match parser with
      | Option.none => .ok (v, src)
      | some .pybool =>
        match bool_parse v with
        | .ok b => .ok (b, src)
        | .error exc => .error exc

/-- One recorded documentation tuple
`[self.name, self.doc, self.default, self.jsonable_value, self.source]`
(`ConfigElement.doc_render`). -/
structure DocEntry where
  name : String
  doc : String
  default : Option Expr
  value : PyVal
  source : Option String

/-- `ConfigManager._docs`: a list of `[_doc_part, doc]` pairs, one per
`load_elements` call. -/
abbrev Docs : Type := List (List DocEntry × String)

/-- The tuple appended by `element.doc_render()` inside `load_elements`,
given the value and provenance computed by the `jsonable_value` access. -/
def element_doc_entry (e : CElem) (v : MVal) (src : String) : DocEntry :=
  ⟨e.name, e.doc, e.default, jsonable_value (masked_value e.masked v), some src⟩

/-- The `for element in elements` loop of `ConfigManager.load_elements`:
bind `element.ctx` to the manager dict, assign `ctx['os'] = os`, publish
`element.value` via `setattr`, then record `element.doc_render()` — whose
`jsonable_value` access recomputes `element.value` against the updated
dict.  Any exception from a value computation propagates. -/
def load_elements_go (elements : List CElem) (mgr : Ctx) (docPart : List DocEntry) :
    Except PyExc (Ctx × List DocEntry) :=
  match elements with
  | [] => .ok (mgr, docPart)
  | e :: rest =>
    let ctx := dinsert mgr "os" MVal.osMod
    match element_value e ctx with
    | .error exc => .error exc
    | .ok (v, _) =>
      let ctx2 := dinsert ctx e.name v
      match element_value e ctx2 with
      | .error exc => .error exc
      | .ok (v2, src2) => load_elements_go rest ctx2 (docPart ++ [element_doc_entry e v2 src2])

/-- `ConfigManager.load_elements(elements, doc)`: run the loop on the manager
dict and append `[_doc_part, doc]` to `self._docs`. -/
def load_elements (mgr : Ctx) (docs : Docs) (elements : List CElem) (docName : String) :
    Except PyExc (Ctx × Docs) :=
  match load_elements_go elements mgr [] with
  | .ok (m, part) => .ok (m, docs ++ [(part, docName)])
  | .error e => .error e

/-- The per-option record of `ConfigManager.doc_render`:
`{'doc': ..., 'default': ..., 'value': ..., 'source': ...}`. -/
structure DocRec4 where
  doc : String
  default : Option Expr
  value : PyVal
  source : Option String

/-- The per-option record of `ConfigManager.json_render`:
`{'value': ..., 'source': ...}`. -/
structure DocRec2 where
  value : PyVal
  source : Option String

/-- The inner dict built by `ConfigManager.doc_render` for one section. -/
def doc_render_items (sec : List DocEntry) : List (String × DocRec4) :=
  sec.foldl (fun items e => dinsert items e.name ⟨e.doc, e.default, e.value, e.source⟩) []

/-- `ConfigManager.doc_render`. -/
def doc_render (docs : Docs) : List (String × List (String × DocRec4)) :=
  docs.foldl (fun rv sec => dinsert rv sec.2 (doc_render_items sec.1)) []

/-- The inner dict built by `ConfigManager.json_render` for one section. -/
def json_render_items (sec : List DocEntry) : List (String × DocRec2) :=
  sec.foldl (fun items e => dinsert items e.name ⟨e.value, e.source⟩) []

/-- `ConfigManager.json_render`. -/
def json_render (docs : Docs) : List (String × List (String × DocRec2)) :=
  docs.foldl (fun rv sec => dinsert rv sec.2 (json_render_items sec.1)) []

/-- Nested lookup `render[section][option]`. -/
def lookup2 {α : Type} (m : List (String × List (String × α))) (s n : String) : Option α :=
  match dictLookup m s with
  | some items => dictLookup items n
  | Option.none => Option.none

/-- A discoverable extension-module descriptor: importable name, declared
`depends` list, and the effect of its `load(manager)` entry point, modelled
as the ordered name/value pairs it publishes on the manager via
`load_elements`/`setattr`. -/
structure Module where
  name : String
  depends : List String
  pubs : List (String × String)
deriving DecidableEq

/-- `ConfigManager._check_depends(depends)`. -/
def check_depends (loaded : List String) (depends : List String) : Bool :=
  depends.all (fun d => loaded.contains d)

/-- The message logged by `_load_configs` for a module that cannot be
loaded once the loader is deadlocked — note it names only the module, not
the missing dependency. -/
def errMsg (name : String) : String :=
  "Failed loading " ++ name ++ ". Missing dependency."

/-- Result of one `for m_name in modules` pass of
`ConfigManager._load_configs`. -/
structure PassOut where
  loaded : List String
  ctx : List (String × String)
  remaining : List Module
  changed : Bool
  errors : List String

/-- One pass of `_load_configs`: excluded modules are skipped (dropped from
the worklist), a module whose dependencies are all loaded is loaded (its
publications applied in order, its name appended to `_modules_loaded`,
`changed` set), and any other module stays on the worklist — with an error
logged when the pass runs in the deadlocked state. -/
def pass_run (ex : List String) (deadlocked : Bool) (loaded : List String)
    (ctx : List (String × String)) : List Module → PassOut
  | [] => ⟨loaded, ctx, [], false, []⟩
  | m :: ms =>
    if ex.contains m.name then pass_run ex deadlocked loaded ctx ms
    else if check_depends loaded m.depends then
      let r := pass_run ex deadlocked (loaded ++ [m.name])
        (m.pubs.foldl (fun c p => dinsert c p.1 p.2) ctx) ms
      ⟨r.loaded, r.ctx, r.remaining, true, r.errors⟩
    else
      let r := pass_run ex deadlocked loaded ctx ms
      ⟨r.loaded, r.ctx, m :: r.remaining, r.changed,
        (if deadlocked then [errMsg m.name] else []) ++ r.errors⟩

/-- A pass never lengthens the worklist. -/
theorem pass_run_remaining_le (ex : List String) (dl : Bool) (loaded : List String)
    (ctx : List (String × String)) :
    ∀ ms : List Module, (pass_run ex dl loaded ctx ms).remaining.length ≤ ms.length := by
  intro ms
  induction ms generalizing loaded ctx with
  | nil => simp [pass_run]
  | cons m ms ih =>
    simp only [pass_run]
    split
    · exact Nat.le_succ_of_le (ih loaded ctx)
    · split
      · exact Nat.le_succ_of_le (ih _ _)
      · simpa using Nat.succ_le_succ (ih loaded ctx)

/-- A pass that loaded something strictly shrinks the worklist. -/
theorem pass_run_remaining_lt (ex : List String) (dl : Bool) (loaded : List String)
    (ctx : List (String × String)) :
    ∀ ms : List Module, (pass_run ex dl loaded ctx ms).changed = true →
      (pass_run ex dl loaded ctx ms).remaining.length < ms.length := by
  intro ms
  induction ms generalizing loaded ctx with
  | nil => simp [pass_run]
  | cons m ms ih =>
    simp only [pass_run]
    split
    · intro hc
      exact Nat.lt_succ_of_lt (ih loaded ctx hc)
    · split
      · intro _
        exact Nat.lt_succ_of_le (pass_run_remaining_le ex dl _ _ ms)
      · intro hc
        simp only at hc
        simpa using Nat.succ_lt_succ (ih loaded ctx hc)

/-- Observable outcome of `ConfigManager._load_configs`: the
`_modules_loaded` list, the manager values published by module loads, the
logged error lines, whether the deadlocked state was reached, and the final
worklist. -/
structure LoadOut where
  loaded : List String
  ctx : List (String × String)
  errors : List String
  deadlocked : Bool
  remaining : List Module

/-- The `while len(modules) and not deadlocked` loop of `_load_configs`:
after a pass that changed nothing (with modules still pending), exactly one
further pass runs in the deadlocked state (logging one error per pending
module) and the loop exits. -/
def run_load (ex : List String) (loaded : List String) (ctx : List (String × String))
    (modules : List Module) : LoadOut :=
  if modules.isEmpty then ⟨loaded, ctx, [], false, modules⟩
  else
    let p := pass_run ex false loaded ctx modules
    if hc : p.changed then run_load ex p.loaded p.ctx p.remaining
    else if p.remaining.isEmpty then ⟨p.loaded, p.ctx, [], false, p.remaining⟩
    else
      let q := pass_run ex true p.loaded p.ctx p.remaining
      ⟨q.loaded, q.ctx, q.errors, true, q.remaining⟩
termination_by modules.length
decreasing_by
  exact pass_run_remaining_lt ex false loaded ctx modules hc

/-- `_load_configs` starting from a fresh manager. -/
def load_manager (ex : List String) (modules : List Module) : LoadOut :=
  run_load ex [] [] modules

/-- The error the spec calls `DependencyDeadlock(modules, missing_per_module)`. -/
structure DependencyDeadlock where
  modules : List String
  missingPerModule : List (String × List String)

/-- `_load_configs` viewed with its exception channel: the method body
contains no `raise`, so the computation always returns normally. -/
def load_configs (ex : List String) (modules : List Module) :
    Except DependencyDeadlock LoadOut :=
  .ok (load_manager ex modules)

/-- A name is satisfiable in the dependency graph (discovery order ignored):
some non-excluded module of that name has all its dependencies
satisfiable.  This is the least fixed point the worklist loop computes. -/
inductive Sat (ex : List String) (ms : List Module) : String → Prop
  | intro (m : Module) (hm : m ∈ ms) (hx : m.name ∉ ex)
      (hd : ∀ d ∈ m.depends, Sat ex ms d) : Sat ex ms m.name

/-- The dependency graph contains a module whose dependencies cannot all be
satisfied (a cycle participant or a module with a missing/excluded
dependency). -/
def Unsat (ex : List String) (ms : List Module) : Prop :=
  ∃ m ∈ ms, m.name ∉ ex ∧ ∃ d ∈ m.depends, ¬ Sat ex ms d

/-! ### Basic dictionary lemmas -/

theorem dictLookup_dinsert_self {α : Type} (d : List (String × α)) (k : String) (v : α) :
    dictLookup (dinsert d k v) k = some v := by
  induction d with
  | nil => simp [dinsert, dictLookup]
  | cons p rest ih =>
    obtain ⟨k', v'⟩ := p
    by_cases h : k' = k
    · simp [dinsert, dictLookup, h]
    · simp [dinsert, dictLookup, h, ih]

theorem dictLookup_dinsert_ne {α : Type} (d : List (String × α)) (k k' : String) (v : α)
    (h : k' ≠ k) : dictLookup (dinsert d k v) k' = dictLookup d k' := by
  induction d with
  | nil => simp [dinsert, dictLookup, Ne.symm h]
  | cons p rest ih =>
    obtain ⟨k₀, v₀⟩ := p
    simp only [dinsert]
    by_cases h₀ : k₀ = k
    · subst h₀
      simp [dictLookup, Ne.symm h]
    · simp [dictLookup, if_neg h₀, ih]

theorem dictLookup_dinsert_isSome {α : Type} (d : List (String × α)) (k k' : String) (v : α)
    (h : (dictLookup d k').isSome = true) :
    (dictLookup (dinsert d k v) k').isSome = true := by
  by_cases hk : k' = k
  · subst hk
    simp [dictLookup_dinsert_self]
  · rwa [dictLookup_dinsert_ne _ _ _ _ hk]

/-! ### C3 — masking (`ConfigElement.masked_value`) -/

/-- Claim C3: for every element with `masked=True` whose value is a string of
length `L`, the rendered masked value reveals exactly `min(L//8, 8)`
characters at the start and at the end with a constant ellipsis between.
This FAILS on the code for `1 ≤ L ≤ 7`: there `min(L//8, 8) = 0`, and
Python's `value[-0:]` is the whole string, so the render reveals the entire
value after the separator.  The theorem evaluates the source's masking at
the failing input `"abcdefg"` (length 7): the code renders `"...abcdefg"`,
while the claim requires zero revealed characters at each end (`"..."`). -/
theorem claim3_masking_bug :
    masked_value true (MVal.py (PyVal.str "abcdefg")) = MVal.py (PyVal.str "...abcdefg")
    ∧ min ("abcdefg".length / 8) 8 = 0
    ∧ "...abcdefg" ≠ "..." :=
  ⟨rfl, rfl, by decide⟩

/-! ### C4 — external-source path traversal (`ConfigExternalJSONSource._get`) -/

/-- First source of the C4 scenario: its keymap sends `k` to the internal
path `x:y`, whose first segment `x` is absent from the backing document. -/
def c4_source_broken : ExtSource :=
  ⟨"/c4/first.json", .dict [("k", .str "x:y")], .dict [("a", .dict [("b", .int 1)])]⟩

/-- Second source of the C4 scenario: it does provide `k`. -/
def c4_source_good : ExtSource :=
  ⟨"/c4/second.json", .dict [("k", .str "v")], .dict [("v", .str "val")]⟩

/-- The C4 chain: broken source first, good source second. -/
def c4_chain : ExtSources := ⟨"/c4/external_configs.yaml", [c4_source_broken, c4_source_good]⟩

/-- Claim C4: a lookup whose internal path has a missing segment (including
a missing intermediate node) fails with a KeyNotFound-style, non-fatal
resolution failure, so the chain moves on to the next source.  This FAILS
on the code: `_get` walks the document with `dict.get`, which returns
`None` instead of raising `KeyError`, so (1) a missing intermediate segment
makes the next `.get` call raise an uncaught `AttributeError` — a fatal
error that aborts the whole chain even though the next source provides the
key — and (2) a missing final segment is silently reported as the value
`None` rather than any failure. -/
theorem claim4_traversal_bug :
    sources_get c4_chain "k" = .error .attributeError
    ∧ source_get c4_source_good "k" = .ok (.str "val")
    ∧ json_source_get (.dict [("a", .dict [("b", .int 1)])]) (.str "a:z") = .ok .none :=
  ⟨rfl, rfl, rfl⟩

/-! ### C6 — chain resolution order (`ConfigExternalSources.get`) -/

/-- First source of the C6 scenario: keymap maps `dbpass` to a path whose
middle segment is absent. -/
def c6_source_first : ExtSource :=
  ⟨"/c6/a.json", .dict [("dbpass", .str "top:miss:leaf")],
    .dict [("top", .dict [("mid", .dict [])])]⟩

/-- Second source of the C6 scenario: provides `dbpass` directly. -/
def c6_source_second : ExtSource :=
  ⟨"/c6/b.json", .dict [("dbpass", .str "kk")], .dict [("kk", .int 42)]⟩

/-- The C6 chain. -/
def c6_chain : ExtSources := ⟨"/c6/external_configs.yaml", [c6_source_first, c6_source_second]⟩

/-- Claim C6: `ExternalSourceChain.get` returns the result of the first
source that succeeds and raises `KeyNotFoundAnywhere` (naming the chain's
path and the key) when every source fails.  The first part FAILS on the
code: when an earlier source's path traversal hits a missing intermediate
segment, the resulting `AttributeError` is not an `ExternalConfigKeyError`,
so the chain loop re-raises it instead of trying the next source — here the
second source would succeed with `42`, yet `get` aborts.  The exhaustion
part does hold: when every source fails with a key error, the chain raises
`ExternalConfigKeyError` carrying its own path and the key. -/
theorem claim6_chain_bug :
    sources_get c6_chain "dbpass" = .error .attributeError
    ∧ source_get c6_source_second "dbpass" = .ok (.int 42)
    ∧ sources_get c6_chain "absent" = .error (.extKeyError "/c6/external_configs.yaml" "absent") :=
  ⟨rfl, rfl, rfl⟩

/-! ### C9 — external-source chain construction (`_load_external_sources`) -/

/-- Claim C9: an unsupported format tag must raise
`ExternalSourceFormatError` carrying the entry's path and tag.  This FAILS
on the code: the `raise` line reads `config['filetype']`, but descriptor
entries carry the tag under the key `'format'`, so constructing the error
itself raises an uncaught `KeyError('filetype')` — the failure is still
hard, but it is a `KeyError`, not an `ExternalConfigFormatError` carrying
path and tag.  The silent-drop half of the claim does hold: an entry whose
backing document is absent is skipped. -/
theorem claim9_format_error_bug :
    load_external_sources []
        [[("format", PyVal.str "yaml"), ("path", PyVal.str "/x.yaml"),
          ("keymap", PyVal.dict [])]] = .error (.keyError "filetype")
    ∧ load_external_sources []
        [[("format", PyVal.str "json"), ("path", PyVal.str "/missing.json"),
          ("keymap", PyVal.dict [])]] = .ok [] :=
  ⟨rfl, rfl⟩

/-! ### C1 / C5 — the precedence chain (`ConfigOption.raw_value`) -/

/-- The manager's `_external_configs` attribute: `None` until
`load_config_files` finds a descriptor, a `ConfigExternalSources` chain
afterwards. -/
def ext_mval : Option ExtSources → MVal
  | some c => .ext c
  | Option.none => .py .none

/-- Resolution for one option as the SPEC states it (§4.2): consult the
environment override map, the local-override document, the instance
document, the external chain (if configured), then evaluate the default
expression; the first source containing the option's name wins, and each
step is annotated with its provenance tag.  Written from the spec's words,
for comparison against `raw_value` (which is translated from the source). -/
def spec_resolve (name : String) (env loc inst : List (String × PyVal))
    (ext : Option ExtSources) (default : Option Expr) (ctx : Ctx) :
    Except PyExc (MVal × String) :=
  match dictLookup env name with
  | some v => .ok (.py v, "environment_override")
  | Option.none =>
  match dictLookup loc name with
  | some v => .ok (.py v, "local_override")
  | Option.none =>
  match dictLookup inst name with
  | some v => .ok (.py v, "instance_config")
  | Option.none =>
  match ext with
  | some chain =>
    match sources_get chain name with
    | .ok v => .ok (.py v, "external_config")
    | .error _ =>
      match eval_default default ctx with
      | .ok v => .ok (v, "default")
      | .error e => .error e
  | Option.none =>
    match eval_default default ctx with
    | .ok v => .ok (v, "default")
    | .error e => .error e

/-- The result channel of step 5 of `raw_value`: the `except SyntaxError`
handler re-raises the same exception, so the result equals the plain
evaluation result. -/
theorem raw_value_default_result (name : String) (default : Option Expr) (ctx : Ctx) :
    (raw_value_default name default ctx).result =
      match eval_default default ctx with
      | .ok v => .ok (v, "default")
      | .error e => .error e := by
  rw [raw_value_default]
  cases h : eval_default default ctx with
  | ok v => rfl
  | error e => cases e <;> rfl

/-- Rewriting helper: a context lookup known to succeed. -/
theorem ctx_item_of_eq {ctx : Ctx} {k : String} {v : MVal}
    (h : dictLookup ctx k = some v) : ctx_item ctx k = .ok v := by
  simp [ctx_item, h]

/-- On a context with the shape every initialised `ConfigManager` has —
the three override maps bound to dicts and `_external_configs` bound to
`None` or a chain — and provided a consulted chain fails only with
`ExternalConfigKeyError`, `raw_value` computes exactly the spec's
precedence resolution. -/
theorem raw_value_eq_spec (name : String) (ctx : Ctx)
    (env loc inst : List (String × PyVal)) (ext : Option ExtSources) (default : Option Expr)
    (henv : dictLookup ctx "_environment_overrides" = some (.py (.dict env)))
    (hloc : dictLookup ctx "_local_config" = some (.py (.dict loc)))
    (hinst : dictLookup ctx "_instance_config" = some (.py (.dict inst)))
    (hext : dictLookup ctx "_external_configs" = some (ext_mval ext))
    (hchain : ∀ c, ext = some c → (sources_get c name).isOk = true ∨
        ∃ e, sources_get c name = .error e ∧ isExtKeyError e = true) :
    (raw_value name default ctx).result = spec_resolve name env loc inst ext default ctx := by
  have hTryE : try_dict_source ctx "_environment_overrides" name =
      mval_item (MVal.py (.dict env)) name := by
    simp [try_dict_source, ctx_item, henv]
  have hTryL : try_dict_source ctx "_local_config" name =
      mval_item (MVal.py (.dict loc)) name := by
    simp [try_dict_source, ctx_item, hloc]
  have hTryI : try_dict_source ctx "_instance_config" name =
      mval_item (MVal.py (.dict inst)) name := by
    simp [try_dict_source, ctx_item, hinst]
  rw [raw_value, hTryE]
  cases hE : dictLookup env name with
  | some v => simp [mval_item, hE, spec_resolve]
  | none =>
    simp only [mval_item, hE, isKeyError, spec_resolve]
    rw [hTryL]
    cases hL : dictLookup loc name with
    | some v => simp [mval_item, hL]
    | none =>
      simp only [mval_item, hL, isKeyError]
      rw [hTryI]
      cases hI : dictLookup inst name with
      | some v => simp [mval_item, hI]
      | none =>
        simp only [mval_item, hI, isKeyError]
        rw [raw_value_external, ctx_item_of_eq hext]
        cases ext with
        | none =>
          simp only [ext_mval, mvalTruthy, Bool.false_eq_true, if_false]
          exact raw_value_default_result name default ctx
        | some c =>
          simp only [ext_mval, mvalTruthy, mval_get_method, if_true]
          cases hG : sources_get c name with
          | ok v => simp
          | error e =>
            rcases hchain c rfl with hOk | ⟨e', he', hext'⟩
            · rw [hG] at hOk
              simp [Except.isOk, Except.toBool] at hOk
            · rw [hG] at he'
              cases he'
              simp only [hext', if_true]
              exact raw_value_default_result name default ctx

/-- Claim C1: for every `ConfigOption`, `raw_value` resolution consults the
sources in the strict total order environment override map → local-override
document → instance document → external chain → default expression, the
first source containing the option's name winning; in particular a key
present in both the local and instance documents resolves to the local
document's value.  Stated for every context with the shape an initialised
`ConfigManager` gives it (the three override maps bound to dicts,
`_external_configs` bound to `None` or a chain) whose consulted chain fails
only with key errors: `raw_value` equals the spec-side `spec_resolve`, and
the local document wins over the instance document. -/
theorem claim1_precedence (name : String) (ctx : Ctx)
    (env loc inst : List (String × PyVal)) (ext : Option ExtSources) (default : Option Expr)
    (henv : dictLookup ctx "_environment_overrides" = some (.py (.dict env)))
    (hloc : dictLookup ctx "_local_config" = some (.py (.dict loc)))
    (hinst : dictLookup ctx "_instance_config" = some (.py (.dict inst)))
    (hext : dictLookup ctx "_external_configs" = some (ext_mval ext))
    (hchain : ∀ c, ext = some c → (sources_get c name).isOk = true ∨
        ∃ e, sources_get c name = .error e ∧ isExtKeyError e = true) :
    (raw_value name default ctx).result = spec_resolve name env loc inst ext default ctx
    ∧ (dictLookup env name = Option.none → ∀ v, dictLookup loc name = some v →
        (raw_value name default ctx).result = .ok (.py v, "local_override")) := by
  have hmain := raw_value_eq_spec name ctx env loc inst ext default
    henv hloc hinst hext hchain
  refine ⟨hmain, fun hE v hL => ?_⟩
  rw [hmain, spec_resolve.eq_def]
  simp [hE, hL]

/-- Concrete context for the C1 witness: the key `K1` is present in both the
local and the instance documents with different values. -/
def c1_ctx : Ctx :=
  [("_environment_overrides", .py (.dict [])),
   ("_local_config", .py (.dict [("K1", .str "from_local")])),
   ("_instance_config", .py (.dict [("K1", .str "from_instance")])),
   ("_external_configs", .py .none)]

/-- Witness for C1 at a concrete input: with `K1` in both the local and the
instance documents, `raw_value` resolves to the local document's value. -/
theorem claim1_witness :
    (raw_value "K1" (some (.lit .none)) c1_ctx).result =
      .ok (.py (.str "from_local"), "local_override") :=
  (claim1_precedence "K1" c1_ctx [] [("K1", .str "from_local")]
      [("K1", .str "from_instance")] Option.none (some (.lit .none))
      rfl rfl rfl rfl (fun c h => Option.noConfusion h)).2 rfl _ rfl

/-- Claim C5, corrected.  When the three override maps lack the option's
name and the external chain is unconfigured or misses it, the code's
behaviour splits on HOW the default expression is unusable: the empty
expression raises `SyntaxError`, which the handler re-raises after printing
a message naming the option (the spec's `RequiredOptionUnset`), and the
error propagates to the caller; an unset (`None`) default instead raises
`TypeError`, which propagates without naming the option at all. -/
theorem claim5_required_unset (name : String) (ctx : Ctx)
    (env loc inst : List (String × PyVal)) (ext : Option ExtSources)
    (henv : dictLookup ctx "_environment_overrides" = some (.py (.dict env)))
    (hloc : dictLookup ctx "_local_config" = some (.py (.dict loc)))
    (hinst : dictLookup ctx "_instance_config" = some (.py (.dict inst)))
    (hext : dictLookup ctx "_external_configs" = some (ext_mval ext))
    (hE : dictLookup env name = Option.none)
    (hL : dictLookup loc name = Option.none)
    (hI : dictLookup inst name = Option.none)
    (hmiss : ∀ c, ext = some c →
        ∃ e, sources_get c name = .error e ∧ isExtKeyError e = true) :
    raw_value name (some Expr.empty) ctx = ⟨[reqMsg name], .error .syntaxError⟩
    ∧ raw_value name Option.none ctx = ⟨[], .error .typeError⟩ := by
  have hstep : ∀ default : Option Expr,
      raw_value name default ctx = raw_value_default name default ctx := by
    intro default
    have hTryE : try_dict_source ctx "_environment_overrides" name =
        .error (.keyError name) := by
      simp [try_dict_source, ctx_item, henv, mval_item, hE]
    have hTryL : try_dict_source ctx "_local_config" name = .error (.keyError name) := by
      simp [try_dict_source, ctx_item, hloc, mval_item, hL]
    have hTryI : try_dict_source ctx "_instance_config" name = .error (.keyError name) := by
      simp [try_dict_source, ctx_item, hinst, mval_item, hI]
    rw [raw_value, hTryE]
    simp only [isKeyError, if_true]
    rw [hTryL]
    simp only [isKeyError, if_true]
    rw [hTryI]
    simp only [isKeyError, if_true]
    rw [raw_value_external, ctx_item_of_eq hext]
    cases hx : ext with
    | none => simp [ext_mval, mvalTruthy]
    | some c =>
      obtain ⟨e, he, hke⟩ := hmiss c hx
      simp [ext_mval, mvalTruthy, mval_get_method, he, hke]
  constructor
  · rw [hstep (some Expr.empty)]
    rfl
  · rw [hstep Option.none]
    rfl

/-- Concrete context for the C5 counterexample and witness: all four
sources empty. -/
def c5_ctx : Ctx :=
  [("_environment_overrides", .py (.dict [])),
   ("_local_config", .py (.dict [])),
   ("_instance_config", .py (.dict [])),
   ("_external_configs", .py .none)]

/-- Counterexample to C5 as stated: the option `APIKEY` has no value in any
of the four override sources and its default is UNSET (`None`) — exactly a
case the claim covers ("default expression empty/unset") — yet resolution
fails with a bare `TypeError` that neither carries nor prints the option's
name, rather than with a `RequiredOptionUnset`-style error naming the
option (the printed-output channel is empty). -/
theorem claim5_counterexample :
    raw_value "APIKEY" Option.none c5_ctx = ⟨[], .error .typeError⟩ := rfl

/-- Witness for the corrected C5 at a concrete input: an empty default
expression fails with `SyntaxError` after printing the message that names
the option. -/
theorem claim5_witness :
    raw_value "W5" (some Expr.empty) c5_ctx = ⟨[reqMsg "W5"], .error .syntaxError⟩ :=
  (claim5_required_unset "W5" c5_ctx [] [] [] Option.none
      rfl rfl rfl rfl rfl rfl rfl (fun c h => Option.noConfusion h)).1

/-! ### C10 — `load_elements` frame effect -/

/-- The element loop only inserts into the manager dict, so every key
present when an iteration starts is still present at the end. -/
theorem load_elements_go_preserves (elements : List CElem) :
    ∀ (mgr : Ctx) (part : List DocEntry) (mgr' : Ctx) (part' : List DocEntry),
      load_elements_go elements mgr part = .ok (mgr', part') →
      ∀ k, (dictLookup mgr k).isSome = true → (dictLookup mgr' k).isSome = true := by
  induction elements with
  | nil =>
    intro mgr part mgr' part' h k hk
    simp only [load_elements_go] at h
    cases h
    exact hk
  | cons e rest ih =>
    intro mgr part mgr' part' h k hk
    simp only [load_elements_go] at h
    cases h1 : element_value e (dinsert mgr "os" MVal.osMod) with
    | error exc => simp only [h1] at h; exact Except.noConfusion h
    | ok vs =>
      obtain ⟨v, src⟩ := vs
      simp only [h1] at h
      cases h2 : element_value e (dinsert (dinsert mgr "os" MVal.osMod) e.name v) with
      | error exc => simp only [h2] at h; exact Except.noConfusion h
      | ok vs2 =>
        obtain ⟨v2, src2⟩ := vs2
        simp only [h2] at h
        exact ih _ _ _ _ h k
          (dictLookup_dinsert_isSome _ _ _ _ (dictLookup_dinsert_isSome _ _ _ _ hk))

/-- After a successful iteration sequence over a nonempty element list, the
manager dict contains the key `os`; it is bound to the `os` module whenever
no element itself is named `os`; and it contains every element's name. -/
theorem load_elements_go_main (elements : List CElem) :
    ∀ (mgr : Ctx) (part : List DocEntry) (mgr' : Ctx) (part' : List DocEntry),
      elements ≠ [] →
      load_elements_go elements mgr part = .ok (mgr', part') →
      (dictLookup mgr' "os").isSome = true
      ∧ ((∀ e ∈ elements, e.name ≠ "os") → dictLookup mgr' "os" = some MVal.osMod)
      ∧ ∀ e ∈ elements, (dictLookup mgr' e.name).isSome = true := by
  induction elements with
  | nil => intro _ _ _ _ hne _; exact absurd rfl hne
  | cons e rest ih =>
    intro mgr part mgr' part' _ h
    simp only [load_elements_go] at h
    cases h1 : element_value e (dinsert mgr "os" MVal.osMod) with
    | error exc => simp only [h1] at h; exact Except.noConfusion h
    | ok vs =>
      obtain ⟨v, src⟩ := vs
      simp only [h1] at h
      cases h2 : element_value e (dinsert (dinsert mgr "os" MVal.osMod) e.name v) with
      | error exc => simp only [h2] at h; exact Except.noConfusion h
      | ok vs2 =>
        obtain ⟨v2, src2⟩ := vs2
        simp only [h2] at h
        have hos2 :
            (dictLookup (dinsert (dinsert mgr "os" MVal.osMod) e.name v) "os").isSome = true :=
          dictLookup_dinsert_isSome _ _ _ _ (by simp [dictLookup_dinsert_self])
        have hname2 :
            (dictLookup (dinsert (dinsert mgr "os" MVal.osMod) e.name v) e.name).isSome =
              true := by
          simp [dictLookup_dinsert_self]
        cases rest with
        | nil =>
          simp only [load_elements_go] at h
          cases h
          refine ⟨hos2, fun hno => ?_, ?_⟩
          · have hne : e.name ≠ "os" := hno e (by simp)
            rw [dictLookup_dinsert_ne _ _ _ _ (Ne.symm hne)]
            exact dictLookup_dinsert_self _ _ _
          · intro e' he'
            simp only [List.mem_singleton] at he'
            subst he'
            exact hname2
        | cons r rs =>
          obtain ⟨hosr, hosmod, hnames⟩ := ih _ _ _ _ (by simp) h
          refine ⟨hosr,
            fun hno => hosmod (fun x hx => hno x (List.mem_cons_of_mem e hx)), ?_⟩
          intro e' he'
          rcases List.mem_cons.mp he' with he' | he'
          · subst he'
            exact load_elements_go_preserves _ _ _ _ _ h _ hname2
          · exact hnames e' he'

/-- Claim C10, corrected: a `load_elements` call with a NONEMPTY element
list binds each element's evaluation context to the manager dict, inserts
the `os` module under the key `os` (still bound to the module afterwards
unless some element is itself named `os`), and publishes every element's
name; a call with an empty element list performs none of these insertions
(it only appends the documentation group). -/
theorem claim10_load_elements_os (mgr : Ctx) (docs : Docs) (elements : List CElem)
    (dn : String) (mgr' : Ctx) (docs' : Docs)
    (hne : elements ≠ [])
    (h : load_elements mgr docs elements dn = .ok (mgr', docs')) :
    (dictLookup mgr' "os").isSome = true
    ∧ ((∀ e ∈ elements, e.name ≠ "os") → dictLookup mgr' "os" = some MVal.osMod)
    ∧ ∀ e ∈ elements, (dictLookup mgr' e.name).isSome = true := by
  rw [load_elements] at h
  cases hgo : load_elements_go elements mgr [] with
  | error exc => rw [hgo] at h; cases h
  | ok p =>
    obtain ⟨m, part⟩ := p
    rw [hgo] at h
    have hm : m = mgr' := by
      injection h with h'
      exact congrArg Prod.fst h'
    subst hm
    exact load_elements_go_main elements mgr [] m part hne hgo

/-- A manager dict as `ConfigManager.__init__` leaves it (no `os` key). -/
def c10_mgr : Ctx :=
  [("_environment_overrides", .py (.dict [])),
   ("_local_config", .py (.dict [])),
   ("_instance_config", .py (.dict [])),
   ("_external_configs", .py .none)]

/-- Counterexample to C10 as stated: `load_elements` with an EMPTY element
list leaves the manager dict untouched (it still appends a documentation
group), so after this call the manager exposes no attribute named `os` —
the `ctx['os'] = os` assignment sits inside the per-element loop and never
runs. -/
theorem claim10_counterexample :
    load_elements c10_mgr [] [] "group" = .ok (c10_mgr, [([], "group")])
    ∧ dictLookup c10_mgr "os" = Option.none :=
  ⟨rfl, rfl⟩

/-- Concrete element for the C10 witness. -/
def c10_elem : CElem := .const "X10" (some (.lit (.int 5))) "a doc" false

/-- Expected manager dict after the C10 witness call. -/
def c10_mgr_out : Ctx :=
  [("_environment_overrides", .py (.dict [])),
   ("_local_config", .py (.dict [])),
   ("_instance_config", .py (.dict [])),
   ("_external_configs", .py .none),
   ("os", MVal.osMod),
   ("X10", .py (.int 5))]

/-- Witness for the corrected C10 at a concrete input: loading one constant
publishes it and leaves `os` bound to the `os` module. -/
theorem claim10_witness :
    (dictLookup c10_mgr_out "os").isSome = true
    ∧ dictLookup c10_mgr_out "X10" = some (.py (.int 5)) := by
  have h := claim10_load_elements_os c10_mgr [] [c10_elem] "group" c10_mgr_out
    [([⟨"X10", "a doc", some (.lit (.int 5)), .int 5, some "hardcoded"⟩], "group")]
    (by simp) rfl
  exact ⟨h.1, rfl⟩

/-! ### C8 — render agreement (`doc_render` / `json_render`) -/

/-- The projection from a full introspection record to a JSON record. -/
def doc_rec_proj (r : DocRec4) : DocRec2 := ⟨r.value, r.source⟩

/-- Mapping a value transformation under an association list commutes with
lookup. -/
theorem dictLookup_map {α β : Type} (f : α → β) (l : List (String × α)) (k : String) :
    dictLookup (l.map (fun p => (p.1, f p.2))) k = (dictLookup l k).map f := by
  induction l with
  | nil => rfl
  | cons p rest ih =>
    obtain ⟨k', v⟩ := p
    by_cases h : k' = k
    · simp [dictLookup, h]
    · simp [dictLookup, h, ih]

/-- Mapping a value transformation commutes with dict assignment. -/
theorem dinsert_map {α β : Type} (f : α → β) (l : List (String × α)) (k : String) (v : α) :
    (dinsert l k v).map (fun p => (p.1, f p.2)) =
      dinsert (l.map (fun p => (p.1, f p.2))) k (f v) := by
  induction l with
  | nil => rfl
  | cons p rest ih =>
    obtain ⟨k', v'⟩ := p
    by_cases h : k' = k
    · simp [dinsert, h]
    · simp [dinsert, h, ih]

/-- The per-section JSON items are the pointwise projection of the
per-section introspection items, starting from projected accumulators. -/
theorem render_items_proj_aux (sec : List DocEntry) :
    ∀ acc : List (String × DocRec4),
      sec.foldl (fun items e => dinsert items e.name ⟨e.value, e.source⟩)
          (acc.map (fun p => (p.1, doc_rec_proj p.2))) =
        (sec.foldl (fun items e => dinsert items e.name ⟨e.doc, e.default, e.value, e.source⟩)
            acc).map (fun p => (p.1, doc_rec_proj p.2)) := by
  induction sec with
  | nil => intro acc; rfl
  | cons e rest ih =>
    intro acc
    simp only [List.foldl_cons]
    have hv : (⟨e.value, e.source⟩ : DocRec2) =
        doc_rec_proj ⟨e.doc, e.default, e.value, e.source⟩ := rfl
    rw [hv, ← dinsert_map (f := doc_rec_proj) acc e.name ⟨e.doc, e.default, e.value, e.source⟩]
    exact ih (dinsert acc e.name ⟨e.doc, e.default, e.value, e.source⟩)

/-- `json_render_items` is the projection of `doc_render_items`. -/
theorem render_items_proj (sec : List DocEntry) :
    json_render_items sec = (doc_render_items sec).map (fun p => (p.1, doc_rec_proj p.2)) := by
  have h := render_items_proj_aux sec []
  simpa [json_render_items, doc_render_items] using h

/-- `json_render` is the pointwise projection of `doc_render`, starting from
projected accumulators. -/
theorem render_proj_aux (docs : Docs) :
    ∀ acc : List (String × List (String × DocRec4)),
      docs.foldl (fun rv sec => dinsert rv sec.2 (json_render_items sec.1))
          (acc.map (fun p => (p.1, p.2.map (fun q => (q.1, doc_rec_proj q.2))))) =
        (docs.foldl (fun rv sec => dinsert rv sec.2 (doc_render_items sec.1)) acc).map
          (fun p => (p.1, p.2.map (fun q => (q.1, doc_rec_proj q.2)))) := by
  induction docs with
  | nil => intro acc; rfl
  | cons sec rest ih =>
    intro acc
    simp only [List.foldl_cons]
    rw [render_items_proj sec.1,
      ← dinsert_map (f := fun items => items.map (fun q => (q.1, doc_rec_proj q.2)))
        acc sec.2 (doc_render_items sec.1)]
    exact ih (dinsert acc sec.2 (doc_render_items sec.1))

/-- Claim C8: for every option recorded by `load_elements`, the JSON-shaped
render and the structured introspection render agree on the option's
`value` and `source`; indeed `json_render` is the pointwise projection of
`doc_render` onto those two fields — both are pure projections of the same
recorded `_docs` tuples, with no recomputation. -/
theorem claim8_render_agreement (docs : Docs) :
    json_render docs =
      (doc_render docs).map (fun p => (p.1, p.2.map (fun q => (q.1, doc_rec_proj q.2))))
    ∧ ∀ s n,
        (lookup2 (json_render docs) s n).map DocRec2.value =
          (lookup2 (doc_render docs) s n).map DocRec4.value
        ∧ (lookup2 (json_render docs) s n).map DocRec2.source =
          (lookup2 (doc_render docs) s n).map DocRec4.source := by
  have hproj : json_render docs =
      (doc_render docs).map (fun p => (p.1, p.2.map (fun q => (q.1, doc_rec_proj q.2)))) := by
    have h := render_proj_aux docs []
    simpa [json_render, doc_render] using h
  refine ⟨hproj, fun s n => ?_⟩
  have hl2 : lookup2 (json_render docs) s n =
      (lookup2 (doc_render docs) s n).map doc_rec_proj := by
    rw [hproj, lookup2, lookup2, dictLookup_map]
    cases dictLookup (doc_render docs) s with
    | none => rfl
    | some items => simp [dictLookup_map]
  rw [hl2]
  cases lookup2 (doc_render docs) s n with
  | none => exact ⟨rfl, rfl⟩
  | some r => exact ⟨rfl, rfl⟩

end TendrilConfig

namespace TendrilConfig

theorem contains_iff {l : List String} {a : String} : l.contains a = true ↔ a ∈ l := by
  simp [List.contains]

theorem check_depends_iff {loaded ds : List String} :
    check_depends loaded ds = true ↔ ∀ d ∈ ds, d ∈ loaded := by
  simp [check_depends, List.all_eq_true, contains_iff]

theorem check_depends_false_iff {loaded ds : List String} :
    check_depends loaded ds = false ↔ ∃ d ∈ ds, d ∉ loaded := by
  rw [← Bool.not_eq_true, check_depends_iff]
  push_neg
  rfl

theorem check_depends_mono {l1 l2 ds : List String} (hsub : ∀ x ∈ l1, x ∈ l2)
    (h : check_depends l1 ds = true) : check_depends l2 ds = true := by
  rw [check_depends_iff] at h ⊢
  exact fun d hd => hsub d (h d hd)

theorem pass_run_loaded_prefix (ex : List String) (dl : Bool) :
    ∀ (ms : List Module) (loaded : List String) (ctx : List (String × String)),
      ∃ t, (pass_run ex dl loaded ctx ms).loaded = loaded ++ t := by
  intro ms
  induction ms with
  | nil => intro loaded ctx; exact ⟨[], by simp [pass_run]⟩
  | cons m rest ih =>
    intro loaded ctx
    by_cases hx : m.name ∈ ex
    · simpa [pass_run, hx] using ih loaded ctx
    · by_cases hd : check_depends loaded m.depends = true
      · obtain ⟨t, ht⟩ := ih (loaded ++ [m.name]) (m.pubs.foldl (fun c p => dinsert c p.1 p.2) ctx)
        refine ⟨[m.name] ++ t, ?_⟩
        simp [pass_run, hx, hd, ht]
      · obtain ⟨t, ht⟩ := ih loaded ctx
        refine ⟨t, ?_⟩
        simp [pass_run, hx, hd, ht]

end TendrilConfig

namespace TendrilConfig

theorem pass_run_cons_ex {ex : List String} {dl : Bool} {loaded : List String}
    {ctx : List (String × String)} {m : Module} {rest : List Module} (hx : m.name ∈ ex) :
    pass_run ex dl loaded ctx (m :: rest) = pass_run ex dl loaded ctx rest := by
  simp [pass_run, hx]

theorem pass_run_cons_load {ex : List String} {dl : Bool} {loaded : List String}
    {ctx : List (String × String)} {m : Module} {rest : List Module} (hx : m.name ∉ ex)
    (hd : check_depends loaded m.depends = true) :
    pass_run ex dl loaded ctx (m :: rest) =
      ⟨(pass_run ex dl (loaded ++ [m.name])
          (m.pubs.foldl (fun c p => dinsert c p.1 p.2) ctx) rest).loaded,
       (pass_run ex dl (loaded ++ [m.name])
          (m.pubs.foldl (fun c p => dinsert c p.1 p.2) ctx) rest).ctx,
       (pass_run ex dl (loaded ++ [m.name])
          (m.pubs.foldl (fun c p => dinsert c p.1 p.2) ctx) rest).remaining,
       true,
       (pass_run ex dl (loaded ++ [m.name])
          (m.pubs.foldl (fun c p => dinsert c p.1 p.2) ctx) rest).errors⟩ := by
  simp [pass_run, hx, hd]

theorem pass_run_cons_stuck {ex : List String} {dl : Bool} {loaded : List String}
    {ctx : List (String × String)} {m : Module} {rest : List Module} (hx : m.name ∉ ex)
    (hd : check_depends loaded m.depends = false) :
    pass_run ex dl loaded ctx (m :: rest) =
      ⟨(pass_run ex dl loaded ctx rest).loaded,
       (pass_run ex dl loaded ctx rest).ctx,
       m :: (pass_run ex dl loaded ctx rest).remaining,
       (pass_run ex dl loaded ctx rest).changed,
       (if dl then [errMsg m.name] else []) ++ (pass_run ex dl loaded ctx rest).errors⟩ := by
  simp [pass_run, hx, hd]

theorem pass_run_nil {ex : List String} {dl : Bool} {loaded : List String}
    {ctx : List (String × String)} :
    pass_run ex dl loaded ctx ([] : List Module) = ⟨loaded, ctx, [], false, []⟩ := rfl

end TendrilConfig

namespace TendrilConfig

theorem pass_run_remaining_sub (ex : List String) (dl : Bool) :
    ∀ (ms : List Module) (loaded : List String) (ctx : List (String × String)),
      ∀ m ∈ (pass_run ex dl loaded ctx ms).remaining, m ∈ ms := by
  intro ms
  induction ms with
  | nil => intro loaded ctx m hm; simp [pass_run_nil] at hm
  | cons m' rest ih =>
    intro loaded ctx m hm
    by_cases hx : m'.name ∈ ex
    · rw [pass_run_cons_ex hx] at hm
      exact List.mem_cons_of_mem m' (ih loaded ctx m hm)
    · cases hd : check_depends loaded m'.depends with
      | true =>
        rw [pass_run_cons_load hx hd] at hm
        exact List.mem_cons_of_mem m' (ih _ _ m hm)
      | false =>
        rw [pass_run_cons_stuck hx hd] at hm
        rcases List.mem_cons.mp hm with h | h
        · exact h ▸ List.mem_cons_self m' rest
        · exact List.mem_cons_of_mem m' (ih loaded ctx m h)

theorem pass_run_remaining_not_ex (ex : List String) (dl : Bool) :
    ∀ (ms : List Module) (loaded : List String) (ctx : List (String × String)),
      ∀ m ∈ (pass_run ex dl loaded ctx ms).remaining, m.name ∉ ex := by
  intro ms
  induction ms with
  | nil => intro loaded ctx m hm; simp [pass_run_nil] at hm
  | cons m' rest ih =>
    intro loaded ctx m hm
    by_cases hx : m'.name ∈ ex
    · rw [pass_run_cons_ex hx] at hm
      exact ih loaded ctx m hm
    · cases hd : check_depends loaded m'.depends with
      | true =>
        rw [pass_run_cons_load hx hd] at hm
        exact ih _ _ m hm
      | false =>
        rw [pass_run_cons_stuck hx hd] at hm
        rcases List.mem_cons.mp hm with h | h
        · exact h ▸ hx
        · exact ih loaded ctx m h

end TendrilConfig

namespace TendrilConfig

theorem pass_run_loaded_of_not_remaining (ex : List String) (dl : Bool) :
    ∀ (ms : List Module) (loaded : List String) (ctx : List (String × String)) (m : Module),
      m ∈ ms → m.name ∉ ex → m ∉ (pass_run ex dl loaded ctx ms).remaining →
      m.name ∈ (pass_run ex dl loaded ctx ms).loaded := by
  intro ms
  induction ms with
  | nil => intro loaded ctx m hm; exact absurd hm (List.not_mem_nil m)
  | cons m' rest ih =>
    intro loaded ctx m hm hex hnr
    by_cases hx : m'.name ∈ ex
    · rw [pass_run_cons_ex hx] at hnr ⊢
      rcases List.mem_cons.mp hm with h | h
      · exact absurd (h ▸ hx) hex
      · exact ih loaded ctx m h hex hnr
    · cases hd : check_depends loaded m'.depends with
      | true =>
        rw [pass_run_cons_load hx hd] at hnr ⊢
        rcases List.mem_cons.mp hm with h | h
        · obtain ⟨t, ht⟩ := pass_run_loaded_prefix ex dl rest (loaded ++ [m'.name])
            (m'.pubs.foldl (fun c p => dinsert c p.1 p.2) ctx)
          show m.name ∈ (pass_run ex dl (loaded ++ [m'.name])
            (m'.pubs.foldl (fun c p => dinsert c p.1 p.2) ctx) rest).loaded
          rw [ht, h]
          simp
        · exact ih _ _ m h hex hnr
      | false =>
        rw [pass_run_cons_stuck hx hd] at hnr ⊢
        rcases List.mem_cons.mp hm with h | h
        · exact absurd (List.mem_cons_self m' _) (h ▸ hnr)
        · exact ih loaded ctx m h hex fun hc => hnr (List.mem_cons_of_mem m' hc)

theorem pass_run_loaded_deps (ex : List String) (dl : Bool) :
    ∀ (ms : List Module) (loaded : List String) (ctx : List (String × String)) (m : Module),
      m ∈ ms → m.name ∉ ex → m ∉ (pass_run ex dl loaded ctx ms).remaining →
      ∀ d ∈ m.depends, d ∈ (pass_run ex dl loaded ctx ms).loaded := by
  intro ms
  induction ms with
  | nil => intro loaded ctx m hm; exact absurd hm (List.not_mem_nil m)
  | cons m' rest ih =>
    intro loaded ctx m hm hex hnr d hd'
    by_cases hx : m'.name ∈ ex
    · rw [pass_run_cons_ex hx] at hnr ⊢
      rcases List.mem_cons.mp hm with h | h
      · exact absurd (h ▸ hx) hex
      · exact ih loaded ctx m h hex hnr d hd'
    · cases hd : check_depends loaded m'.depends with
      | true =>
        rw [pass_run_cons_load hx hd] at hnr ⊢
        rcases List.mem_cons.mp hm with h | h
        · obtain ⟨t, ht⟩ := pass_run_loaded_prefix ex dl rest (loaded ++ [m'.name])
            (m'.pubs.foldl (fun c p => dinsert c p.1 p.2) ctx)
          show d ∈ (pass_run ex dl (loaded ++ [m'.name])
            (m'.pubs.foldl (fun c p => dinsert c p.1 p.2) ctx) rest).loaded
          rw [ht]
          have hdm : d ∈ loaded := check_depends_iff.mp (h ▸ hd) d hd'
          simp [hdm]
        · exact ih _ _ m h hex hnr d hd'
      | false =>
        rw [pass_run_cons_stuck hx hd] at hnr ⊢
        rcases List.mem_cons.mp hm with h | h
        · exact absurd (List.mem_cons_self m' _) (h ▸ hnr)
        · exact ih loaded ctx m h hex (fun hc => hnr (List.mem_cons_of_mem m' hc)) d hd'

end TendrilConfig

namespace TendrilConfig

theorem pass_run_loaded_sound (ex : List String) (dl : Bool) (top : List Module) :
    ∀ (ms : List Module) (loaded : List String) (ctx : List (String × String)),
      (∀ m ∈ ms, m ∈ top) → (∀ l ∈ loaded, Sat ex top l) →
      ∀ l ∈ (pass_run ex dl loaded ctx ms).loaded, Sat ex top l := by
  intro ms
  induction ms with
  | nil =>
    intro loaded ctx _ hsat l hl
    rw [pass_run_nil] at hl
    exact hsat l hl
  | cons m' rest ih =>
    intro loaded ctx htop hsat l hl
    by_cases hx : m'.name ∈ ex
    · rw [pass_run_cons_ex hx] at hl
      exact ih loaded ctx (fun m hm => htop m (List.mem_cons_of_mem m' hm)) hsat l hl
    · cases hd : check_depends loaded m'.depends with
      | true =>
        rw [pass_run_cons_load hx hd] at hl
        have hsat' : ∀ x ∈ loaded ++ [m'.name], Sat ex top x := by
          intro x hx'
          rcases List.mem_append.mp hx' with h | h
          · exact hsat x h
          · have hxm : x = m'.name := List.mem_singleton.mp h
            subst hxm
            exact Sat.intro m' (htop m' (List.mem_cons_self m' rest)) hx
              (fun d hd' => hsat d (check_depends_iff.mp hd d hd'))
        exact ih _ _ (fun m hm => htop m (List.mem_cons_of_mem m' hm)) hsat' l hl
      | false =>
        rw [pass_run_cons_stuck hx hd] at hl
        exact ih loaded ctx (fun m hm => htop m (List.mem_cons_of_mem m' hm)) hsat l hl

theorem pass_run_unchanged (ex : List String) (dl : Bool) :
    ∀ (ms : List Module) (loaded : List String) (ctx : List (String × String)),
      (pass_run ex dl loaded ctx ms).changed = false →
      (pass_run ex dl loaded ctx ms).loaded = loaded
      ∧ (pass_run ex dl loaded ctx ms).ctx = ctx
      ∧ (∀ m ∈ ms, m.name ∉ ex → m ∈ (pass_run ex dl loaded ctx ms).remaining)
      ∧ (∀ m ∈ (pass_run ex dl loaded ctx ms).remaining,
          check_depends loaded m.depends = false) := by
  intro ms
  induction ms with
  | nil =>
    intro loaded ctx _
    refine ⟨rfl, rfl, ?_, ?_⟩
    · intro m hm; exact absurd hm (List.not_mem_nil m)
    · intro m hm; rw [pass_run_nil] at hm; exact absurd hm (List.not_mem_nil m)
  | cons m' rest ih =>
    intro loaded ctx hch
    by_cases hx : m'.name ∈ ex
    · rw [pass_run_cons_ex hx] at hch ⊢
      obtain ⟨h1, h2, h3, h4⟩ := ih loaded ctx hch
      refine ⟨h1, h2, ?_, h4⟩
      intro m hm hex
      rcases List.mem_cons.mp hm with h | h
      · exact absurd (h ▸ hx) hex
      · exact h3 m h hex
    · cases hd : check_depends loaded m'.depends with
      | true =>
        rw [pass_run_cons_load hx hd] at hch
        exact absurd hch (by simp)
      | false =>
        rw [pass_run_cons_stuck hx hd] at hch ⊢
        simp only at hch
        obtain ⟨h1, h2, h3, h4⟩ := ih loaded ctx hch
        refine ⟨h1, h2, ?_, ?_⟩
        · intro m hm _
          rcases List.mem_cons.mp hm with h | h
          · exact h ▸ List.mem_cons_self m' _
          · exact List.mem_cons_of_mem m' (h3 m h ‹m.name ∉ ex›)
        · intro m hm
          rcases List.mem_cons.mp hm with h | h
          · exact h ▸ hd
          · exact h4 m h

theorem pass_run_stuck (ex : List String) (dl : Bool) :
    ∀ (ms : List Module) (loaded : List String) (ctx : List (String × String)),
      (∀ m ∈ ms, m.name ∉ ex ∧ check_depends loaded m.depends = false) →
      pass_run ex dl loaded ctx ms =
        ⟨loaded, ctx, ms, false, if dl then ms.map (fun m => errMsg m.name) else []⟩ := by
  intro ms
  induction ms with
  | nil =>
    intro loaded ctx _
    rw [pass_run_nil]
    cases dl <;> rfl
  | cons m' rest ih =>
    intro loaded ctx hstuck
    obtain ⟨hx, hd⟩ := hstuck m' (List.mem_cons_self m' rest)
    rw [pass_run_cons_stuck hx hd,
      ih loaded ctx (fun m hm => hstuck m (List.mem_cons_of_mem m' hm))]
    cases dl <;> rfl

end TendrilConfig

namespace TendrilConfig

theorem run_load_nil {ex loaded : List String} {ctx : List (String × String)}
    {ms : List Module} (h : ms.isEmpty = true) :
    run_load ex loaded ctx ms = ⟨loaded, ctx, [], false, ms⟩ := by
  rw [run_load]
  simp [h]

theorem run_load_changed {ex loaded : List String} {ctx : List (String × String)}
    {ms : List Module} (h : ¬ms.isEmpty = true)
    (hc : (pass_run ex false loaded ctx ms).changed = true) :
    run_load ex loaded ctx ms =
      run_load ex (pass_run ex false loaded ctx ms).loaded
        (pass_run ex false loaded ctx ms).ctx (pass_run ex false loaded ctx ms).remaining := by
  rw [run_load]
  simp [h, hc]

theorem run_load_done {ex loaded : List String} {ctx : List (String × String)}
    {ms : List Module} (h : ¬ms.isEmpty = true)
    (hc : ¬(pass_run ex false loaded ctx ms).changed = true)
    (hre : (pass_run ex false loaded ctx ms).remaining.isEmpty = true) :
    run_load ex loaded ctx ms =
      ⟨(pass_run ex false loaded ctx ms).loaded, (pass_run ex false loaded ctx ms).ctx,
        [], false, (pass_run ex false loaded ctx ms).remaining⟩ := by
  rw [run_load]
  simp [h, hc, hre]

theorem run_load_deadlock {ex loaded : List String} {ctx : List (String × String)}
    {ms : List Module} (h : ¬ms.isEmpty = true)
    (hc : ¬(pass_run ex false loaded ctx ms).changed = true)
    (hre : ¬(pass_run ex false loaded ctx ms).remaining.isEmpty = true) :
    run_load ex loaded ctx ms =
      ⟨(pass_run ex true (pass_run ex false loaded ctx ms).loaded
          (pass_run ex false loaded ctx ms).ctx
          (pass_run ex false loaded ctx ms).remaining).loaded,
        (pass_run ex true (pass_run ex false loaded ctx ms).loaded
          (pass_run ex false loaded ctx ms).ctx
          (pass_run ex false loaded ctx ms).remaining).ctx,
        (pass_run ex true (pass_run ex false loaded ctx ms).loaded
          (pass_run ex false loaded ctx ms).ctx
          (pass_run ex false loaded ctx ms).remaining).errors,
        true,
        (pass_run ex true (pass_run ex false loaded ctx ms).loaded
          (pass_run ex false loaded ctx ms).ctx
          (pass_run ex false loaded ctx ms).remaining).remaining⟩ := by
  rw [run_load]
  simp [h, hc, hre]

end TendrilConfig

namespace TendrilConfig

theorem run_load_loaded_prefix (ex : List String) :
    ∀ (loaded : List String) (ctx : List (String × String)) (ms : List Module),
      ∃ t, (run_load ex loaded ctx ms).loaded = loaded ++ t := by
  intro loaded ctx ms
  induction loaded, ctx, ms using run_load.induct ex with
  | case1 loaded ctx ms h =>
    exact ⟨[], by rw [run_load_nil h]; simp⟩
  | case2 loaded ctx ms h p hc ih =>
    obtain ⟨t1, ht1⟩ := pass_run_loaded_prefix ex false ms loaded ctx
    obtain ⟨t2, ht2⟩ := ih
    refine ⟨t1 ++ t2, ?_⟩
    rw [run_load_changed h hc, ht2, ht1]
    simp
  | case3 loaded ctx ms h p hc hre =>
    obtain ⟨t1, ht1⟩ := pass_run_loaded_prefix ex false ms loaded ctx
    exact ⟨t1, by rw [run_load_done h hc hre]; exact ht1⟩
  | case4 loaded ctx ms h p hc hre =>
    obtain ⟨t1, ht1⟩ := pass_run_loaded_prefix ex false ms loaded ctx
    obtain ⟨t2, ht2⟩ := pass_run_loaded_prefix ex true
      (pass_run ex false loaded ctx ms).remaining (pass_run ex false loaded ctx ms).loaded
      (pass_run ex false loaded ctx ms).ctx
    refine ⟨t1 ++ t2, ?_⟩
    rw [run_load_deadlock h hc hre]
    show (pass_run ex true (pass_run ex false loaded ctx ms).loaded
      (pass_run ex false loaded ctx ms).ctx
      (pass_run ex false loaded ctx ms).remaining).loaded = loaded ++ (t1 ++ t2)
    rw [ht2, ht1]
    simp

end TendrilConfig

namespace TendrilConfig

theorem run_load_deadlock_struct {ex loaded : List String} {ctx : List (String × String)}
    {ms : List Module} (h : ¬ms.isEmpty = true)
    (hc : ¬(pass_run ex false loaded ctx ms).changed = true)
    (hre : ¬(pass_run ex false loaded ctx ms).remaining.isEmpty = true) :
    run_load ex loaded ctx ms =
      ⟨loaded, (pass_run ex false loaded ctx ms).ctx,
       (pass_run ex false loaded ctx ms).remaining.map (fun m => errMsg m.name), true,
       (pass_run ex false loaded ctx ms).remaining⟩ := by
  have hc' : (pass_run ex false loaded ctx ms).changed = false := by
    revert hc
    cases (pass_run ex false loaded ctx ms).changed <;> simp
  obtain ⟨h1, h2, h3, h4⟩ := pass_run_unchanged ex false ms loaded ctx hc'
  have hstuck : ∀ m ∈ (pass_run ex false loaded ctx ms).remaining,
      m.name ∉ ex ∧ check_depends (pass_run ex false loaded ctx ms).loaded m.depends = false := by
    intro m hm
    exact ⟨pass_run_remaining_not_ex ex false ms loaded ctx m hm, by rw [h1]; exact h4 m hm⟩
  rw [run_load_deadlock h hc hre,
    pass_run_stuck ex true (pass_run ex false loaded ctx ms).remaining
      (pass_run ex false loaded ctx ms).loaded (pass_run ex false loaded ctx ms).ctx hstuck]
  rw [h1]
  simp

theorem run_load_loaded_sound (ex : List String) (top : List Module) :
    ∀ (loaded : List String) (ctx : List (String × String)) (ms : List Module),
      (∀ m ∈ ms, m ∈ top) → (∀ l ∈ loaded, Sat ex top l) →
      ∀ l ∈ (run_load ex loaded ctx ms).loaded, Sat ex top l := by
  intro loaded ctx ms
  induction loaded, ctx, ms using run_load.induct ex with
  | case1 loaded ctx ms h =>
    intro _ hsat l hl
    rw [run_load_nil h] at hl
    exact hsat l hl
  | case2 loaded ctx ms h p hc ih =>
    intro htop hsat l hl
    rw [run_load_changed h hc] at hl
    exact ih
      (fun m hm => htop m (pass_run_remaining_sub ex false ms loaded ctx m hm))
      (pass_run_loaded_sound ex false top ms loaded ctx htop hsat) l hl
  | case3 loaded ctx ms h p hc hre =>
    intro htop hsat l hl
    rw [run_load_done h hc hre] at hl
    exact pass_run_loaded_sound ex false top ms loaded ctx htop hsat l hl
  | case4 loaded ctx ms h p hc hre =>
    intro htop hsat l hl
    rw [run_load_deadlock_struct h hc hre] at hl
    exact hsat l hl

theorem run_load_closure (ex : List String) :
    ∀ (loaded : List String) (ctx : List (String × String)) (ms : List Module) (m : Module),
      m ∈ ms → m.name ∉ ex →
      check_depends (run_load ex loaded ctx ms).loaded m.depends = true →
      m.name ∈ (run_load ex loaded ctx ms).loaded := by
  intro loaded ctx ms
  induction loaded, ctx, ms using run_load.induct ex with
  | case1 loaded ctx ms h =>
    intro m hm _ _
    rw [List.isEmpty_iff] at h
    subst h
    exact absurd hm (List.not_mem_nil m)
  | case2 loaded ctx ms h p hc ih =>
    intro m hm hex hchk
    rw [run_load_changed h hc] at hchk ⊢
    by_cases hr : m ∈ (pass_run ex false loaded ctx ms).remaining
    · exact ih m hr hex hchk
    · have hname := pass_run_loaded_of_not_remaining ex false ms loaded ctx m hm hex hr
      obtain ⟨t, ht⟩ := run_load_loaded_prefix ex (pass_run ex false loaded ctx ms).loaded
        (pass_run ex false loaded ctx ms).ctx (pass_run ex false loaded ctx ms).remaining
      rw [ht]
      exact List.mem_append.mpr (Or.inl hname)
  | case3 loaded ctx ms h p hc hre =>
    intro m hm hex _
    rw [run_load_done h hc hre]
    have hr : m ∉ (pass_run ex false loaded ctx ms).remaining := by
      rw [List.isEmpty_iff] at hre
      rw [hre]
      exact List.not_mem_nil m
    exact pass_run_loaded_of_not_remaining ex false ms loaded ctx m hm hex hr
  | case4 loaded ctx ms h p hc hre =>
    intro m hm hex hchk
    have hc' : (pass_run ex false loaded ctx ms).changed = false := by
      revert hc
      cases (pass_run ex false loaded ctx ms).changed <;> simp
    obtain ⟨h1, h2, h3, h4⟩ := pass_run_unchanged ex false ms loaded ctx hc'
    rw [run_load_deadlock_struct h hc hre] at hchk ⊢
    by_cases hr : m ∈ (pass_run ex false loaded ctx ms).remaining
    · have hfalse := h4 m hr
      rw [show (⟨loaded, (pass_run ex false loaded ctx ms).ctx,
          (pass_run ex false loaded ctx ms).remaining.map (fun m => errMsg m.name), true,
          (pass_run ex false loaded ctx ms).remaining⟩ : LoadOut).loaded = loaded from rfl]
        at hchk
      rw [hfalse] at hchk
      exact absurd hchk (by simp)
    · have hname := pass_run_loaded_of_not_remaining ex false ms loaded ctx m hm hex hr
      rw [h1] at hname
      exact hname

end TendrilConfig

namespace TendrilConfig

theorem run_load_deadlocked_sound (ex : List String) :
    ∀ (loaded : List String) (ctx : List (String × String)) (ms : List Module),
      (run_load ex loaded ctx ms).deadlocked = true →
      ∃ m ∈ ms, m.name ∉ ex ∧ ∃ d ∈ m.depends, d ∉ (run_load ex loaded ctx ms).loaded := by
  intro loaded ctx ms
  induction loaded, ctx, ms using run_load.induct ex with
  | case1 loaded ctx ms h =>
    intro hdl
    rw [run_load_nil h] at hdl
    exact absurd hdl (by simp)
  | case2 loaded ctx ms h p hc ih =>
    intro hdl
    rw [run_load_changed h hc] at hdl ⊢
    obtain ⟨m, hm, hex, d, hd, hdl'⟩ := ih hdl
    exact ⟨m, pass_run_remaining_sub ex false ms loaded ctx m hm, hex, d, hd, hdl'⟩
  | case3 loaded ctx ms h p hc hre =>
    intro hdl
    rw [run_load_done h hc hre] at hdl
    exact absurd hdl (by simp)
  | case4 loaded ctx ms h p hc hre =>
    intro _
    have hc' : (pass_run ex false loaded ctx ms).changed = false := by
      revert hc
      cases (pass_run ex false loaded ctx ms).changed <;> simp
    obtain ⟨h1, h2, h3, h4⟩ := pass_run_unchanged ex false ms loaded ctx hc'
    obtain ⟨m, hm⟩ : ∃ m, m ∈ (pass_run ex false loaded ctx ms).remaining := by
      rcases hq : (pass_run ex false loaded ctx ms).remaining with _ | ⟨m, rest⟩
      · refine absurd ?_ hre
        rw [hq]
        rfl
      · exact ⟨m, hq ▸ List.mem_cons_self m rest⟩
    obtain ⟨d, hd, hdnot⟩ := check_depends_false_iff.mp (h4 m hm)
    refine ⟨m, pass_run_remaining_sub ex false ms loaded ctx m hm,
      pass_run_remaining_not_ex ex false ms loaded ctx m hm, d, hd, ?_⟩
    rw [run_load_deadlock_struct h hc hre]
    exact hdnot

theorem run_load_stuck_deadlock (ex : List String) :
    ∀ (loaded : List String) (ctx : List (String × String)) (ms : List Module) (m : Module)
      (d : String),
      m ∈ ms → m.name ∉ ex → d ∈ m.depends → d ∉ (run_load ex loaded ctx ms).loaded →
      (run_load ex loaded ctx ms).deadlocked = true := by
  intro loaded ctx ms
  induction loaded, ctx, ms using run_load.induct ex with
  | case1 loaded ctx ms h =>
    intro m d hm _ _ _
    rw [List.isEmpty_iff] at h
    subst h
    exact absurd hm (List.not_mem_nil m)
  | case2 loaded ctx ms h p hc ih =>
    intro m d hm hex hd hdnot
    rw [run_load_changed h hc] at hdnot ⊢
    by_cases hr : m ∈ (pass_run ex false loaded ctx ms).remaining
    · exact ih m d hr hex hd hdnot
    · have hdep := pass_run_loaded_deps ex false ms loaded ctx m hm hex hr d hd
      obtain ⟨t, ht⟩ := run_load_loaded_prefix ex (pass_run ex false loaded ctx ms).loaded
        (pass_run ex false loaded ctx ms).ctx (pass_run ex false loaded ctx ms).remaining
      rw [ht] at hdnot
      exact absurd (List.mem_append.mpr (Or.inl hdep)) hdnot
  | case3 loaded ctx ms h p hc hre =>
    intro m d hm hex hd hdnot
    rw [run_load_done h hc hre] at hdnot
    have hr : m ∉ (pass_run ex false loaded ctx ms).remaining := by
      rw [List.isEmpty_iff] at hre
      rw [hre]
      exact List.not_mem_nil m
    exact absurd (pass_run_loaded_deps ex false ms loaded ctx m hm hex hr d hd) hdnot
  | case4 loaded ctx ms h p hc hre =>
    intro m d _ _ _ _
    rw [run_load_deadlock_struct h hc hre]

theorem run_load_deadlock_errors (ex : List String) :
    ∀ (loaded : List String) (ctx : List (String × String)) (ms : List Module),
      ((run_load ex loaded ctx ms).deadlocked = true →
        (run_load ex loaded ctx ms).errors =
          (run_load ex loaded ctx ms).remaining.map (fun m => errMsg m.name)
        ∧ (run_load ex loaded ctx ms).remaining ≠ []
        ∧ ∀ m ∈ (run_load ex loaded ctx ms).remaining,
            check_depends (run_load ex loaded ctx ms).loaded m.depends = false)
      ∧ ((run_load ex loaded ctx ms).deadlocked = false →
          (run_load ex loaded ctx ms).errors = []) := by
  intro loaded ctx ms
  induction loaded, ctx, ms using run_load.induct ex with
  | case1 loaded ctx ms h =>
    rw [run_load_nil h]
    exact ⟨fun hdl => absurd hdl (by simp), fun _ => rfl⟩
  | case2 loaded ctx ms h p hc ih =>
    rw [run_load_changed h hc]
    exact ih
  | case3 loaded ctx ms h p hc hre =>
    rw [run_load_done h hc hre]
    exact ⟨fun hdl => absurd hdl (by simp), fun _ => rfl⟩
  | case4 loaded ctx ms h p hc hre =>
    have hc' : (pass_run ex false loaded ctx ms).changed = false := by
      revert hc
      cases (pass_run ex false loaded ctx ms).changed <;> simp
    obtain ⟨h1, h2, h3, h4⟩ := pass_run_unchanged ex false ms loaded ctx hc'
    rw [run_load_deadlock_struct h hc hre]
    refine ⟨fun _ => ⟨rfl, ?_, ?_⟩, fun hdl => absurd hdl (by simp)⟩
    · intro hnil
      have hnil' : (pass_run ex false loaded ctx ms).remaining = [] := hnil
      rw [hnil'] at hre
      exact hre rfl
    · intro m hm
      exact h4 m hm

end TendrilConfig

namespace TendrilConfig

theorem sat_mono {ex : List String} {ms ms' : List Module} {n : String}
    (hsub : ∀ x ∈ ms, x ∈ ms') (h : Sat ex ms n) : Sat ex ms' n := by
  induction h with
  | intro m hm hx _ ih => exact Sat.intro m (hsub m hm) hx ih

theorem sat_perm {ex : List String} {ms ms' : List Module} {n : String}
    (hp : ms.Perm ms') : Sat ex ms n ↔ Sat ex ms' n :=
  ⟨sat_mono (fun x hx => hp.mem_iff.mp hx), sat_mono (fun x hx => hp.mem_iff.mpr hx)⟩

theorem load_manager_loaded_sound (ex : List String) (ms : List Module) :
    ∀ l ∈ (load_manager ex ms).loaded, Sat ex ms l :=
  run_load_loaded_sound ex ms [] [] ms (fun _ hm => hm) (fun l hl => absurd hl (List.not_mem_nil l))

theorem load_manager_complete {ex : List String} {ms : List Module} {n : String}
    (h : Sat ex ms n) : n ∈ (load_manager ex ms).loaded := by
  induction h with
  | intro m hm hx _ ih =>
    exact run_load_closure ex [] [] ms m hm hx (check_depends_iff.mpr ih)

theorem load_manager_loaded_iff (ex : List String) (ms : List Module) (n : String) :
    n ∈ (load_manager ex ms).loaded ↔ Sat ex ms n :=
  ⟨fun h => load_manager_loaded_sound ex ms n h, load_manager_complete⟩

theorem load_manager_deadlocked_iff (ex : List String) (ms : List Module) :
    (load_manager ex ms).deadlocked = true ↔ Unsat ex ms := by
  constructor
  · intro hdl
    obtain ⟨m, hm, hex, d, hd, hdnot⟩ := run_load_deadlocked_sound ex [] [] ms hdl
    exact ⟨m, hm, hex, d, hd, fun hsat => hdnot (load_manager_complete hsat)⟩
  · rintro ⟨m, hm, hex, d, hd, hnsat⟩
    have hdnot : d ∉ (load_manager ex ms).loaded :=
      fun hmem => hnsat (load_manager_loaded_sound ex ms d hmem)
    exact run_load_stuck_deadlock ex [] [] ms m d hm hex hd hdnot

end TendrilConfig

namespace TendrilConfig

/-- Claim C2, corrected.  A pass that loads zero modules marks the loader
deadlocked and exactly one further pass is attempted, logging one error per
still-unsatisfied module — but the message (`errMsg`) names only the module,
not its missing dependency, and `_load_configs` then terminates by RETURNING
normally: no `DependencyDeadlock` (or any other) exception is raised.
Formally: the exception channel always carries `ok`; in the deadlocked state
the logged errors are exactly one message per module left on the worklist,
the worklist is nonempty, and every module on it has an unsatisfied
dependency; without deadlock nothing is logged. -/
theorem claim2_deadlock_behaviour (ex : List String) (ms : List Module) :
    load_configs ex ms = .ok (load_manager ex ms)
    ∧ ((load_manager ex ms).deadlocked = true →
        (load_manager ex ms).errors =
          (load_manager ex ms).remaining.map (fun m => errMsg m.name)
        ∧ (load_manager ex ms).remaining ≠ []
        ∧ ∀ m ∈ (load_manager ex ms).remaining,
            check_depends (load_manager ex ms).loaded m.depends = false)
    ∧ ((load_manager ex ms).deadlocked = false → (load_manager ex ms).errors = []) :=
  ⟨rfl, (run_load_deadlock_errors ex [] [] ms).1, (run_load_deadlock_errors ex [] [] ms).2⟩

/-- The C2 counterexample module: depends on a module that does not exist. -/
def c2_mod : Module := ⟨"M1", ["MISSING"], []⟩

/-- Counterexample to C2 as stated: for the single module `M1` depending on
the nonexistent `MISSING`, loading terminates NORMALLY (`Except.ok`) with a
logged error — no `DependencyDeadlock` error object is raised — and the
logged message is identical whichever dependency is missing (`DEP_A` vs
`DEP_B`), so the missing dependency is not enumerated. -/
theorem claim2_counterexample :
    load_configs [] [c2_mod] =
      .ok ⟨[], [], ["Failed loading M1. Missing dependency."], true, [c2_mod]⟩
    ∧ (load_manager [] [⟨"M1", ["DEP_A"], []⟩]).errors =
        (load_manager [] [⟨"M1", ["DEP_B"], []⟩]).errors := by
  have h1 : load_manager [] [c2_mod] =
      ⟨[], [], ["Failed loading M1. Missing dependency."], true, [c2_mod]⟩ := by
    simp [load_manager, run_load, pass_run, check_depends, errMsg, c2_mod]
  have hA : (load_manager [] [⟨"M1", ["DEP_A"], []⟩]).errors =
      ["Failed loading M1. Missing dependency."] := by
    simp [load_manager, run_load, pass_run, check_depends, errMsg]
  have hB : (load_manager [] [⟨"M1", ["DEP_B"], []⟩]).errors =
      ["Failed loading M1. Missing dependency."] := by
    simp [load_manager, run_load, pass_run, check_depends, errMsg]
  exact ⟨by rw [load_configs, h1], by rw [hA, hB]⟩

/-- Witness for the corrected C2 at a concrete input: with `W2` depending on
the nonexistent `WX`, the logged errors are exactly one message per module
left on the worklist. -/
theorem claim2_witness :
    (load_manager [] [⟨"W2", ["WX"], []⟩]).errors =
      (load_manager [] [⟨"W2", ["WX"], []⟩]).remaining.map (fun m => errMsg m.name) :=
  ((claim2_deadlock_behaviour [] [⟨"W2", ["WX"], []⟩]).2.1
    (by simp [load_manager, run_load, pass_run, check_depends])).1

/-- Claim C7, corrected.  The loaded-module SET is order-independent: for
every permutation of the discovery order the same names end up loaded,
and the deadlocked state is reached exactly when the dependency graph
(discovery order ignored) contains a non-excluded module whose dependencies
cannot all be satisfied (`Unsat`).  The spec's further assertions fail: no
`DependencyDeadlock` is raised (deadlock is only logged, cf. C2), and
per-module resolved values need NOT be identical across permutations,
because independently-loadable modules publishing the same name resolve by
last-write-wins in load order. -/
theorem claim7_order_independence (ex : List String) (ms ms' : List Module)
    (hp : ms.Perm ms') :
    (∀ n, n ∈ (load_manager ex ms).loaded ↔ n ∈ (load_manager ex ms').loaded)
    ∧ ((load_manager ex ms).deadlocked = true ↔ Unsat ex ms) := by
  refine ⟨fun n => ?_, load_manager_deadlocked_iff ex ms⟩
  rw [load_manager_loaded_iff, load_manager_loaded_iff]
  exact sat_perm hp

/-- C7 counterexample: first publisher of `N7`. -/
def c7_modA : Module := ⟨"A7", [], [("N7", "valA")]⟩

/-- C7 counterexample: second publisher of `N7`. -/
def c7_modB : Module := ⟨"B7", [], [("N7", "valB")]⟩

/-- C7 counterexample: module with an unsatisfiable dependency. -/
def c7_modC : Module := ⟨"C7", ["NOPE"], []⟩

/-- Counterexample to C7 as stated, in two parts.  (1) Resolved values are
not permutation-invariant: `A7` and `B7` have no dependencies and both
publish the name `N7`; discovering `[A7, B7]` leaves `N7 = "valB"` while
the permuted order `[B7, A7]` leaves `N7 = "valA"`.  (2) The claim's
"DependencyDeadlock is raised iff the graph has an unsatisfiable node"
fails: `C7` depends on the nonexistent `NOPE`, the graph is unsatisfiable
and the deadlocked state is reached, yet loading returns `Except.ok` —
nothing is raised. -/
theorem claim7_counterexample :
    [c7_modA, c7_modB].Perm [c7_modB, c7_modA]
    ∧ (load_manager [] [c7_modA, c7_modB]).ctx = [("N7", "valB")]
    ∧ (load_manager [] [c7_modB, c7_modA]).ctx = [("N7", "valA")]
    ∧ load_configs [] [c7_modC] = .ok (load_manager [] [c7_modC])
    ∧ (load_manager [] [c7_modC]).deadlocked = true := by
  refine ⟨List.Perm.swap c7_modB c7_modA [], ?_, ?_, rfl, ?_⟩ <;>
    simp [load_manager, run_load, pass_run, check_depends, c7_modA, c7_modB, c7_modC, dinsert]

/-- C7 witness module depending on `B7w`. -/
def c7_w1 : Module := ⟨"A7w", ["B7w"], []⟩

/-- C7 witness module with no dependencies. -/
def c7_w2 : Module := ⟨"B7w", [], []⟩

/-- Witness for the corrected C7 at a concrete input: `A7w` depends on
`B7w`; membership of `B7w` in the loaded set is the same for the discovery
orders `[A7w, B7w]` and `[B7w, A7w]`. -/
theorem claim7_witness :
    "B7w" ∈ (load_manager [] [c7_w1, c7_w2]).loaded ↔
      "B7w" ∈ (load_manager [] [c7_w2, c7_w1]).loaded :=
  (claim7_order_independence [] [c7_w1, c7_w2] [c7_w2, c7_w1]
    (List.Perm.swap c7_w2 c7_w1 [])).1 "B7w"

end TendrilConfig
